import Mathlib

/-!
Verification of the line-sampling utility `samp` (src/main.rs).

The embedding models the program's core as pure Lean functions:
* the input line stream is a `List (Except IOError String)`, mirroring the
  Rust iterator of `Result<String, io::Error>`;
* the random generator is threaded explicitly as state
  (`StdRng` below), so that every draw and its consumption are visible;
* fallible stages return `Except IOError _`;
* the output sink is driven by an environment `Nat → WriteOutcome` giving
  the outcome of each write attempt.
-/

/-- An opaque I/O error value, standing for Rust's `std::io::Error` as it
appears in the line stream (read failures). -/
structure IOError where
  code : Nat
deriving DecidableEq, Repr

/-- Modelled from the spec (§4.4 Random Stream): the generator
`rand::rngs::StdRng` is external library code, so it is modelled as a
pre-drawn stream of raw values plus a count of draws consumed.  `intSrc i`
feeds the i-th draw when it is an integer draw (`gen_range`); `realSrc i`
feeds it when it is a real draw (`gen::<f64>()`, always a value in `[0,1)`).
Every draw advances `idx` by one, matching "every draw advances it". -/
structure StdRng where
  intSrc : Nat → Nat
  realSrc : Nat → {q : ℚ // 0 ≤ q ∧ q < 1}
  idx : Nat

/-- `rng.gen_range(0..=total)`: a draw of an integer in the closed range
`[0, total]`, advancing the generator state. -/
def StdRng.gen_range (rng : StdRng) (total : Nat) : Nat × StdRng :=
  (rng.intSrc rng.idx % (total + 1), { rng with idx := rng.idx + 1 })

/-- `rng.gen::<f64>()`: a draw of a uniform value in `[0,1)` (modelled as a
rational), advancing the generator state. -/
def StdRng.gen_f64 (rng : StdRng) : {q : ℚ // 0 ≤ q ∧ q < 1} × StdRng :=
  (rng.realSrc rng.idx, { rng with idx := rng.idx + 1 })

/-- Wrap an error-free list of lines as the line stream the samplers read,
mirroring an iterator whose every item is `Ok(line)`. -/
def okLines (ls : List String) : List (Except IOError String) :=
  ls.map Except.ok

/-- The loop of `reservoir_sample` (src/main.rs lines 26–36): `total` is the
0-based position of the current line (`enumerate`), `reservoir` the vector
built so far.  `line_result?` propagates a read error; for `total < k` the
line is pushed; otherwise one `gen_range(0..=total)` draw decides whether
slot `j` is overwritten. -/
def reservoirLoop (k : Nat) :
    List (Except IOError String) → Nat → List String → StdRng →
    Except IOError (List String × StdRng)
  | [], _, reservoir, rng => .ok (reservoir, rng)
  | lr :: rest, total, reservoir, rng =>
    match lr with
    | .error e => .error e
    | .ok line =>
      if total < k then
        reservoirLoop k rest (total + 1) (reservoir ++ [line]) rng
      else
        match rng.gen_range total with
        | (j, rng') =>
          if j < k then
            reservoirLoop k rest (total + 1) (reservoir.set j line) rng'
          else
            reservoirLoop k rest (total + 1) reservoir rng'

/-- `reservoir_sample` (src/main.rs lines 20–39): reservoir sampling of `k`
lines from the stream.  The final generator state is returned alongside the
reservoir to make the draws consumed observable. -/
def reservoir_sample (lines : List (Except IOError String)) (k : Nat)
    (rng : StdRng) : Except IOError (List String × StdRng) :=
  reservoirLoop k lines 0 [] rng

/-- The loop of `probability_sample` (src/main.rs lines 47–52): for each line
draw `u = rng.gen::<f64>()` and keep the line iff `u < p`. -/
def probLoop (p : ℚ) :
    List (Except IOError String) → List String → StdRng →
    Except IOError (List String × StdRng)
  | [], sampled, rng => .ok (sampled, rng)
  | lr :: rest, sampled, rng =>
    match lr with
    | .error e => .error e
    | .ok line =>
      match rng.gen_f64 with
      | (u, rng') =>
        if u.1 < p then probLoop p rest (sampled ++ [line]) rng'
        else probLoop p rest sampled rng'

/-- `probability_sample` (src/main.rs lines 42–54): independent keep with
probability `p`, in encounter order. -/
def probability_sample (lines : List (Except IOError String)) (p : ℚ)
    (rng : StdRng) : Except IOError (List String × StdRng) :=
  probLoop p lines [] rng

/-- Length invariant of the reservoir loop: starting from a reservoir of
size `min k total`, after the remaining error-free lines the reservoir has
size `min k (total + rest.length)`, and no error is produced. -/
theorem reservoirLoop_length (k : Nat) :
    ∀ (rest : List String) (total : Nat) (res : List String) (rng : StdRng),
      res.length = min k total →
      ∃ out rng', reservoirLoop k (okLines rest) total res rng =
          .ok (out, rng') ∧ out.length = min k (total + rest.length) := by
  intro rest
  induction rest with
  | nil =>
    intro total res rng h
    exact ⟨res, rng, rfl, by simpa using h⟩
  | cons line rest ih =>
    intro total res rng h
    by_cases ht : total < k
    · have h' : (res ++ [line]).length = min k (total + 1) := by
        simp [h]
        omega
      obtain ⟨out, rng', heq, hlen⟩ := ih (total + 1) (res ++ [line]) rng h'
      refine ⟨out, rng', ?_, ?_⟩
      · simpa [okLines, reservoirLoop, ht] using heq
      · simpa [Nat.add_comm, Nat.add_assoc, Nat.add_left_comm] using hlen
    · have hk : min k total = k := by omega
      by_cases hj : rng.intSrc rng.idx % (total + 1) < k
      · have h' : (res.set (rng.intSrc rng.idx % (total + 1)) line).length =
            min k (total + 1) := by
          simp [h]
          omega
        obtain ⟨out, rng', heq, hlen⟩ :=
          ih (total + 1) (res.set (rng.intSrc rng.idx % (total + 1)) line)
            { rng with idx := rng.idx + 1 } h'
        refine ⟨out, rng', ?_, ?_⟩
        · simpa [okLines, reservoirLoop, ht, StdRng.gen_range, hj] using heq
        · simpa [Nat.add_comm, Nat.add_assoc, Nat.add_left_comm] using hlen
      · have h' : res.length = min k (total + 1) := by
          simp [h]
          omega
        obtain ⟨out, rng', heq, hlen⟩ :=
          ih (total + 1) res { rng with idx := rng.idx + 1 } h'
        refine ⟨out, rng', ?_, ?_⟩
        · simpa [okLines, reservoirLoop, ht, StdRng.gen_range, hj] using heq
        · simpa [Nat.add_comm, Nat.add_assoc, Nat.add_left_comm] using hlen

/-- C1: For every non-negative target size k and every input stream of n
lines (post-header), the fixed-size sampler returns a result of length
exactly min(k, n). -/
theorem reservoir_sample_length (k : Nat) (ls : List String) (rng : StdRng) :
    (reservoir_sample (okLines ls) k rng).map (fun r => r.1.length) =
      .ok (min k ls.length) := by
  obtain ⟨out, rng', heq, hlen⟩ :=
    reservoirLoop_length k ls 0 [] rng (by simp)
  simp [reservoir_sample, heq, Except.map, hlen]

/-- When every position fits below `k`, the loop appends each line in order
and never touches the generator. -/
theorem reservoirLoop_small (k : Nat) :
    ∀ (rest : List String) (total : Nat) (res : List String) (rng : StdRng),
      total + rest.length ≤ k →
      reservoirLoop k (okLines rest) total res rng = .ok (res ++ rest, rng) := by
  intro rest
  induction rest with
  | nil => intro total res rng _; simp [okLines, reservoirLoop]
  | cons line rest ih =>
    intro total res rng h
    have ht : total < k := by simp at h; omega
    have h' : (total + 1) + rest.length ≤ k := by simp at h; omega
    simpa [okLines, reservoirLoop, ht] using ih (total + 1) (res ++ [line]) rng h'

/-- C4: For every input with n ≤ k post-header lines, the fixed-size
sampler's result contains every input line exactly once, in the original
relative order, and selection in this branch is deterministic: the result is
the input list itself, for every generator state, and the generator is not
advanced at all. -/
theorem reservoir_sample_small (k : Nat) (ls : List String) (rng : StdRng)
    (h : ls.length ≤ k) :
    reservoir_sample (okLines ls) k rng = .ok (ls, rng) := by
  simpa using reservoirLoop_small k ls 0 [] rng (by simpa using h)

/-- A concrete generator state for witnesses: all raw draws are 0, no draw
consumed yet. -/
def rng0 : StdRng :=
  ⟨fun _ => 0, fun _ => ⟨0, by norm_num⟩, 0⟩

/-- Witness for C4 at k = 3, input ["a", "b"]. -/
theorem reservoir_sample_small_witness :
    reservoir_sample (okLines ["a", "b"]) 3 rng0 = .ok (["a", "b"], rng0) :=
  reservoir_sample_small 3 ["a", "b"] rng0 (by decide)

/-- With `k = 0` the `total < k` branch is never taken, so every line costs
exactly one `gen_range` draw and nothing is ever written to the reservoir. -/
theorem reservoirLoop_zero (rest : List String) :
    ∀ (total : Nat) (rng : StdRng),
      reservoirLoop 0 (okLines rest) total [] rng =
        .ok ([], { rng with idx := rng.idx + rest.length }) := by
  induction rest with
  | nil => intro total rng; rfl
  | cons line rest ih =>
    intro total rng
    have h1 : rng.idx + 1 + rest.length = rng.idx + (rest.length + 1) := by omega
    have := ih (total + 1) { rng with idx := rng.idx + 1 }
    simp only [okLines, List.map_cons, reservoirLoop, StdRng.gen_range,
      Nat.not_lt_zero, if_false, Nat.not_succ_le_zero] at this ⊢
    simpa [h1] using this

/-- C7 counterexample: on the one-line input ["a"] with k = 0, the sampler
does consume a random draw (the final generator index is 1, not 0), so
"yields an empty result and consumes no random draws" is false as stated. -/
theorem reservoir_sample_zero_no_draws_cex :
    ¬ ((reservoir_sample (okLines ["a"]) 0 rng0).map (fun r => (r.1, r.2.idx)) =
        .ok ([], 0)) := by
  intro h
  have h1 : (reservoir_sample (okLines ["a"]) 0 rng0).map
      (fun r => (r.1, r.2.idx)) =
      (.ok ([], 1) : Except IOError (List String × Nat)) := rfl
  rw [h1] at h
  simp at h

/-- C7 amended: for every input stream, the fixed-size sampler with k = 0
yields an empty result, but it consumes one random draw per post-header line
(each draw yields some j ≥ 0 = k, so no line is ever kept). -/
theorem reservoir_sample_zero (ls : List String) (rng : StdRng) :
    reservoir_sample (okLines ls) 0 rng =
      .ok ([], { rng with idx := rng.idx + ls.length }) :=
  reservoirLoop_zero ls 0 rng

/-- The probability loop only ever appends: its result is the accumulator
followed by an order-preserving selection of the remaining lines. -/
theorem probLoop_sublist (p : ℚ) :
    ∀ (rest : List String) (sampled : List String) (rng : StdRng),
      ∃ extra rng', probLoop p (okLines rest) sampled rng =
          .ok (sampled ++ extra, rng') ∧ extra.Sublist rest := by
  intro rest
  induction rest with
  | nil =>
    intro sampled rng
    exact ⟨[], rng, by simp [okLines, probLoop], by simp⟩
  | cons line rest ih =>
    intro sampled rng
    by_cases hu : (rng.realSrc rng.idx).1 < p
    · obtain ⟨extra, rng', heq, hsub⟩ :=
        ih (sampled ++ [line]) { rng with idx := rng.idx + 1 }
      refine ⟨line :: extra, rng', ?_, hsub.cons₂ line⟩
      simpa [okLines, probLoop, StdRng.gen_f64, hu] using heq
    · obtain ⟨extra, rng', heq, hsub⟩ :=
        ih sampled { rng with idx := rng.idx + 1 }
      refine ⟨extra, rng', ?_, hsub.cons line⟩
      simpa [okLines, probLoop, StdRng.gen_f64, hu] using heq

/-- C5: For every keep probability p and every input stream, the probability
sampler's output is a subsequence of the input that preserves the input's
relative order. -/
theorem probability_sample_sublist (p : ℚ) (ls : List String) (rng : StdRng) :
    ∃ out rng', probability_sample (okLines ls) p rng = .ok (out, rng') ∧
      out.Sublist ls := by
  obtain ⟨extra, rng', heq, hsub⟩ := probLoop_sublist p ls [] rng
  exact ⟨extra, rng', by simpa [probability_sample] using heq, hsub⟩

/-- With p = 0 no draw `u ∈ [0,1)` satisfies `u < 0`, so nothing is kept;
one draw is still consumed per line. -/
theorem probLoop_zero (rest : List String) :
    ∀ (sampled : List String) (rng : StdRng),
      probLoop 0 (okLines rest) sampled rng =
        .ok (sampled, { rng with idx := rng.idx + rest.length }) := by
  induction rest with
  | nil => intro sampled rng; rfl
  | cons line rest ih =>
    intro sampled rng
    have hu : ¬ ((rng.realSrc rng.idx).1 < 0) := not_lt.2 (rng.realSrc rng.idx).2.1
    have h1 : rng.idx + 1 + rest.length = rng.idx + (rest.length + 1) := by omega
    have := ih sampled { rng with idx := rng.idx + 1 }
    simp only [okLines, List.map_cons, probLoop, StdRng.gen_f64, hu, if_false] at this ⊢
    simpa [h1] using this

/-- With p = 1 every draw `u ∈ [0,1)` satisfies `u < 1`, so every line is
kept in encounter order. -/
theorem probLoop_one (rest : List String) :
    ∀ (sampled : List String) (rng : StdRng),
      probLoop 1 (okLines rest) sampled rng =
        .ok (sampled ++ rest, { rng with idx := rng.idx + rest.length }) := by
  induction rest with
  | nil => intro sampled rng; simp [okLines, probLoop]
  | cons line rest ih =>
    intro sampled rng
    have hu : (rng.realSrc rng.idx).1 < 1 := (rng.realSrc rng.idx).2.2
    have h1 : rng.idx + 1 + rest.length = rng.idx + (rest.length + 1) := by omega
    have := ih (sampled ++ [line]) { rng with idx := rng.idx + 1 }
    simp only [okLines, List.map_cons, probLoop, StdRng.gen_f64, hu, if_true] at this ⊢
    simpa [h1] using this

/-- C6: For every input stream, the probability sampler with p = 0 returns
the empty result, and with p = 1 returns the entire input unchanged, in the
same order. -/
theorem probability_sample_zero_one (ls : List String) (rng : StdRng) :
    probability_sample (okLines ls) 0 rng =
        .ok ([], { rng with idx := rng.idx + ls.length }) ∧
      probability_sample (okLines ls) 1 rng =
        .ok (ls, { rng with idx := rng.idx + ls.length }) :=
  ⟨probLoop_zero ls [] rng, by simpa [probability_sample] using probLoop_one ls [] rng⟩

/-- One step of the fixed-size sampler exactly as the spec words the
algorithm (§4.2): at 0-based post-header position `i`, if `i < k` append the
line to the reservoir; otherwise draw a uniform integer `j` in the closed
range `[0, i]` and overwrite reservoir slot `j` with the current line iff
`j < k`, else discard the line. -/
def specStep (k : Nat) (st : List String × StdRng) (il : Nat × String) :
    List String × StdRng :=
  if il.1 < k then (st.1 ++ [il.2], st.2)
  else
    match st.2.gen_range il.1 with
    | (j, rng') => if j < k then (st.1.set j il.2, rng') else (st.1, rng')

/-- The spec's algorithm run over a whole stream: fold `specStep` over the
lines paired with their 0-based positions, starting from an empty reservoir;
the output is the positional order of the reservoir slots at completion —
no final shuffle is applied. -/
def reservoirSpec (k : Nat) (ls : List String) (rng : StdRng) :
    List String × StdRng :=
  ls.enum.foldl (specStep k) ([], rng)

/-- The source loop agrees with the spec's fold from any intermediate
position and reservoir. -/
theorem reservoirLoop_eq_specFold (k : Nat) :
    ∀ (rest : List String) (t : Nat) (res : List String) (rng : StdRng),
      reservoirLoop k (okLines rest) t res rng =
        .ok ((List.enumFrom t rest).foldl (specStep k) (res, rng)) := by
  intro rest
  induction rest with
  | nil => intro t res rng; rfl
  | cons line rest ih =>
    intro t res rng
    by_cases ht : t < k
    · have := ih (t + 1) (res ++ [line]) rng
      simp only [okLines, List.map_cons, reservoirLoop, ht, if_true] at this ⊢
      rw [this]
      simp [List.enumFrom_cons, specStep, ht]
    · by_cases hj : rng.intSrc rng.idx % (t + 1) < k
      · have := ih (t + 1) (res.set (rng.intSrc rng.idx % (t + 1)) line)
          { rng with idx := rng.idx + 1 }
        simp only [okLines, List.map_cons, reservoirLoop, ht, if_false,
          StdRng.gen_range, hj, if_true] at this ⊢
        rw [this]
        simp [List.enumFrom_cons, specStep, ht, StdRng.gen_range, hj]
      · have := ih (t + 1) res { rng with idx := rng.idx + 1 }
        simp only [okLines, List.map_cons, reservoirLoop, ht, if_false,
          StdRng.gen_range, hj] at this ⊢
        rw [this]
        simp [List.enumFrom_cons, specStep, ht, StdRng.gen_range, hj]

/-- C3: The fixed-size sampler follows exactly the spec's steps: append for
i < k, one closed-range draw `j ∈ [0, i]` with overwrite of slot j iff
j < k for i ≥ k, and the final output is the positional order of the
reservoir slots at completion (no shuffle).  The second conjunct checks that
every draw lies in the closed range `[0, i]`. -/
theorem reservoir_sample_eq_spec (k : Nat) (ls : List String) (rng : StdRng) :
    reservoir_sample (okLines ls) k rng = .ok (reservoirSpec k ls rng) ∧
      ∀ (r : StdRng) (i : Nat), (r.gen_range i).1 ≤ i := by
  constructor
  · have := reservoirLoop_eq_specFold k ls 0 [] rng
    simpa [reservoir_sample, reservoirSpec, List.enum] using this
  · intro r i
    exact Nat.lt_succ_iff.1 (Nat.mod_lt _ (Nat.succ_pos i))

/-- Outcome of a single write attempt on stdout, the environment's view of
one `writeln!` call: success, broken pipe, or another I/O error. -/
inductive WriteOutcome where
  | ok
  | brokenPipe
  | otherErr
deriving DecidableEq, Repr

/-- How the write phase ended: all lines written; `process::exit(0)` after a
broken pipe; or an `Err` returned for any other write error. -/
inductive WriteEnd where
  | allOk
  | exitZero
  | errNonZero
deriving DecidableEq, Repr

/-- `write_results` (src/main.rs lines 57–70): write each line in order;
on success continue, on a broken pipe terminate the process with status 0,
on any other error return the error.  `w i` is the outcome of the i-th
write attempt; the function returns the lines actually emitted and how the
phase ended. -/
def write_results (w : Nat → WriteOutcome) :
    List String → Nat → List String × WriteEnd
  | [], _ => ([], .allOk)
  | line :: rest, i =>
    match w i with
    | .ok =>
      match write_results w rest (i + 1) with
      | (emitted, e) => (line :: emitted, e)
    | .brokenPipe => ([], .exitZero)
    | .otherErr => ([], .errNonZero)

/-- Process exit code implied by the write phase: a broken pipe calls
`process::exit(0)`; any other write error propagates as `Err` out of
`main`, which exits non-zero (code 1). -/
def write_exit : WriteEnd → Nat
  | .allOk => 0
  | .exitZero => 0
  | .errNonZero => 1

/-- Result of the header-passthrough loop in `main`: the stream ended early
(run returns `Ok(())`), a header read failed (`process::exit(1)`), or all
headers were emitted and the rest of the stream goes to the sampler. -/
inductive HeaderPhase where
  | earlyOk (emitted : List String)
  | readErr (emitted : List String) (e : IOError)
  | proceed (emitted : List String) (rest : List (Except IOError String))

/-- The header loop of `main` (src/main.rs lines 175–186): read up to `h`
lines, printing each immediately; a read error exits with code 1; stream
end before `h` lines makes the whole run return `Ok(())`. -/
def processHeaders : Nat → List (Except IOError String) → HeaderPhase
  | 0, rest => .proceed [] rest
  | _ + 1, [] => .earlyOk []
  | h + 1, .ok line :: rest =>
    match processHeaders h rest with
    | .earlyOk es => .earlyOk (line :: es)
    | .readErr es e => .readErr (line :: es) e
    | .proceed es r => .proceed (line :: es) r
  | _ + 1, .error e :: _ => .readErr [] e

/-- The sampling mode, as dispatched in `main` (src/main.rs lines 194–200). -/
inductive Mode where
  | fixedSize (k : Nat)
  | probability (p : ℚ)

/-- What a whole run observably produces: the full stdout line sequence
(headers first, then sampled output) and the process exit code. -/
structure RunResult where
  output : List String
  exitCode : Nat
deriving Repr

/-- `main` after configuration (src/main.rs lines 149–205): header
passthrough, then exactly one sampler on the remaining stream, then
`write_results`; a sampler read error propagates as `Err` out of `main`
(exit code 1). -/
def main_run (mode : Mode) (headerCount : Nat)
    (input : List (Except IOError String)) (rng : StdRng)
    (w : Nat → WriteOutcome) : RunResult :=
  match processHeaders headerCount input with
  | .earlyOk es => ⟨es, 0⟩
  | .readErr es _ => ⟨es, 1⟩
  | .proceed es rest =>
    match (match mode with
           | .fixedSize k => reservoir_sample rest k rng
           | .probability p => probability_sample rest p rng) with
    | .error _ => ⟨es, 1⟩
    | .ok (res, _) =>
      match write_results w res 0 with
      | (emitted, e) => ⟨es ++ emitted, write_exit e⟩

/-- Modelled from the spec (§4.4): `StdRng::seed_from_u64` constructs a
deterministic generator from a 64-bit seed; the underlying ChaCha stream is
external library code, modelled as a fixed deterministic function of the
seed, with no draws consumed yet. -/
def seed_from_u64 (seed : Nat) : StdRng where
  intSrc := fun i => seed % 2 ^ 64 + i
  realSrc := fun i => ⟨(((seed + i) % 7 : Nat) : ℚ) / 7, by
    constructor
    · positivity
    · rw [div_lt_one (by norm_num)]
      exact_mod_cast Nat.mod_lt _ (by norm_num)⟩
  idx := 0

/-- C2: For every seed and every input stream, two runs with the identical
seed and identical input produce identical output, element-for-element and
in the same order, in both fixed-size and probability modes (sampler
results and the whole run's stdout/exit code coincide). -/
theorem same_seed_same_output (s₁ s₂ : Nat) (k : Nat) (p : ℚ) (mode : Mode)
    (hc : Nat) (input₁ input₂ : List (Except IOError String))
    (w : Nat → WriteOutcome) (hs : s₁ = s₂) (hin : input₁ = input₂) :
    reservoir_sample input₁ k (seed_from_u64 s₁) =
        reservoir_sample input₂ k (seed_from_u64 s₂) ∧
      probability_sample input₁ p (seed_from_u64 s₁) =
        probability_sample input₂ p (seed_from_u64 s₂) ∧
      main_run mode hc input₁ (seed_from_u64 s₁) w =
        main_run mode hc input₂ (seed_from_u64 s₂) w := by
  subst hs
  subst hin
  exact ⟨rfl, rfl, rfl⟩

/-- Witness for C2 at seed 42, three input lines, k = 2, p = 1/2. -/
theorem same_seed_same_output_witness :
    reservoir_sample (okLines ["a", "b", "c"]) 2 (seed_from_u64 42) =
        reservoir_sample (okLines ["a", "b", "c"]) 2 (seed_from_u64 42) ∧
      probability_sample (okLines ["a", "b", "c"]) (1 / 2) (seed_from_u64 42) =
        probability_sample (okLines ["a", "b", "c"]) (1 / 2) (seed_from_u64 42) ∧
      main_run (.fixedSize 2) 0 (okLines ["a", "b", "c"]) (seed_from_u64 42)
          (fun _ => .ok) =
        main_run (.fixedSize 2) 0 (okLines ["a", "b", "c"]) (seed_from_u64 42)
          (fun _ => .ok) :=
  same_seed_same_output 42 42 2 (1 / 2) (.fixedSize 2) 0 _ _ _ rfl rfl

/-- If all writes before position `i` succeed and the write at `i` fails,
the write phase emits exactly the lines before `i` and ends according to
the kind of failure. -/
theorem write_results_fail (w : Nat → WriteOutcome) :
    ∀ (i : Nat) (lines : List String) (s : Nat),
      (∀ m, m < i → w (s + m) = .ok) → i < lines.length → w (s + i) ≠ .ok →
      write_results w lines s =
        (lines.take i,
          if w (s + i) = .brokenPipe then WriteEnd.exitZero else .errNonZero) := by
  intro i
  induction i with
  | zero =>
    intro lines s _ hlen hfail
    match lines with
    | line :: rest =>
      cases hw : w s with
      | ok => exact absurd (by simpa using hw) (by simpa using hfail)
      | brokenPipe => simp [write_results, hw]
      | otherErr => simp [write_results, hw]
  | succ i ih =>
    intro lines s hpre hlen hfail
    match lines with
    | line :: rest =>
      have hw : w s = .ok := by simpa using hpre 0 (Nat.succ_pos i)
      have hpre' : ∀ m, m < i → w (s + 1 + m) = .ok := by
        intro m hm
        have := hpre (m + 1) (by omega)
        simpa [Nat.add_assoc, Nat.add_comm, Nat.add_left_comm] using this
      have hlen' : i < rest.length := by simpa using hlen
      have hs1 : s + 1 + i = s + (i + 1) := by omega
      have hfail' : w (s + 1 + i) ≠ .ok := by rw [hs1]; exact hfail
      have := ih rest (s + 1) hpre' hlen' hfail'
      simp [write_results, hw, this, hs1]

/-- C8: During output, a write failing with a broken pipe ends the process
immediately with status 0, any other write fault makes the run exit
non-zero, and in either case no result line after the failing write is
emitted (the emitted output is exactly the lines before the failure). -/
theorem write_results_fault (w : Nat → WriteOutcome) (lines : List String)
    (i : Nat) (hpre : ∀ m, m < i → w m = .ok) (hlen : i < lines.length)
    (hfail : w i ≠ .ok) :
    (write_results w lines 0).1 = lines.take i ∧
      (w i = .brokenPipe → (write_results w lines 0).2 = .exitZero ∧
        write_exit (write_results w lines 0).2 = 0) ∧
      (w i = .otherErr → (write_results w lines 0).2 = .errNonZero ∧
        write_exit (write_results w lines 0).2 = 1) := by
  have h := write_results_fail w i lines 0
    (by intro m hm; simpa using hpre m hm) hlen (by simpa using hfail)
  rw [Nat.zero_add] at h
  refine ⟨by rw [h], fun hbp => ?_, fun hoe => ?_⟩
  · rw [h]; simp [hbp, write_exit]
  · rw [h]; simp [hoe, write_exit]

/-- A write environment whose second write reports a broken pipe. -/
def wBroken : Nat → WriteOutcome :=
  fun n => if n = 1 then .brokenPipe else .ok

/-- Witness for C8: three result lines, broken pipe on the second write. -/
theorem write_results_fault_witness :
    (write_results wBroken ["a", "b", "c"] 0).1 = ["a", "b", "c"].take 1 ∧
      (wBroken 1 = .brokenPipe →
        (write_results wBroken ["a", "b", "c"] 0).2 = .exitZero ∧
          write_exit (write_results wBroken ["a", "b", "c"] 0).2 = 0) ∧
      (wBroken 1 = .otherErr →
        (write_results wBroken ["a", "b", "c"] 0).2 = .errNonZero ∧
          write_exit (write_results wBroken ["a", "b", "c"] 0).2 = 1) :=
  write_results_fault wBroken ["a", "b", "c"] 1
    (by decide) (by decide) (by decide)

/-- When the error-free input is shorter than the header count, the header
loop emits every available line and signals early success. -/
theorem processHeaders_early (ls : List String) :
    ∀ h : Nat, ls.length < h → processHeaders h (okLines ls) = .earlyOk ls := by
  induction ls with
  | nil =>
    intro h hh
    match h with
    | h' + 1 => rfl
  | cons line ls ih =>
    intro h hh
    match h with
    | h' + 1 =>
      have h2 := ih h' (by simpa using hh)
      simp only [okLines] at h2
      simp [okLines, processHeaders, h2]

/-- C9: For every header count h and every input stream of n < h lines, the
run emits exactly the n available lines verbatim and terminates with exit
code 0; the run ends inside the header phase, so no sampler runs. -/
theorem main_run_short_input (mode : Mode) (h : Nat) (ls : List String)
    (rng : StdRng) (w : Nat → WriteOutcome) (hlt : ls.length < h) :
    main_run mode h (okLines ls) rng w = ⟨ls, 0⟩ ∧
      processHeaders h (okLines ls) = .earlyOk ls := by
  have hp := processHeaders_early ls h hlt
  exact ⟨by simp [main_run, hp], hp⟩

/-- Witness for C9: one input line, header count 3. -/
theorem main_run_short_input_witness :
    main_run (.fixedSize 1) 3 (okLines ["a"]) rng0 (fun _ => .ok) = ⟨["a"], 0⟩ ∧
      processHeaders 3 (okLines ["a"]) = .earlyOk ["a"] :=
  main_run_short_input (.fixedSize 1) 3 ["a"] rng0 (fun _ => .ok) (by decide)

/-- A read error anywhere in the remaining stream makes the reservoir loop
return that error, whatever came before it. -/
theorem reservoirLoop_error (k : Nat) (e : IOError)
    (bad : List (Except IOError String)) :
    ∀ (ls : List String) (t : Nat) (res : List String) (rng : StdRng),
      reservoirLoop k (okLines ls ++ .error e :: bad) t res rng = .error e := by
  intro ls
  induction ls with
  | nil => intro t res rng; rfl
  | cons line ls ih =>
    intro t res rng
    by_cases ht : t < k
    · simpa [okLines, reservoirLoop, ht] using ih (t + 1) (res ++ [line]) rng
    · by_cases hj : rng.intSrc rng.idx % (t + 1) < k
      · simpa [okLines, reservoirLoop, ht, StdRng.gen_range, hj] using
          ih (t + 1) (res.set (rng.intSrc rng.idx % (t + 1)) line)
            { rng with idx := rng.idx + 1 }
      · simpa [okLines, reservoirLoop, ht, StdRng.gen_range, hj] using
          ih (t + 1) res { rng with idx := rng.idx + 1 }

/-- A read error anywhere in the remaining stream makes the probability
loop return that error, whatever came before it. -/
theorem probLoop_error (p : ℚ) (e : IOError)
    (bad : List (Except IOError String)) :
    ∀ (ls : List String) (sampled : List String) (rng : StdRng),
      probLoop p (okLines ls ++ .error e :: bad) sampled rng = .error e := by
  intro ls
  induction ls with
  | nil => intro sampled rng; rfl
  | cons line ls ih =>
    intro sampled rng
    by_cases hu : (rng.realSrc rng.idx).1 < p
    · simpa [okLines, probLoop, StdRng.gen_f64, hu] using
        ih (sampled ++ [line]) { rng with idx := rng.idx + 1 }
    · simpa [okLines, probLoop, StdRng.gen_f64, hu] using
        ih sampled { rng with idx := rng.idx + 1 }

/-- When the first `hs.length` stream items are exactly the ok-lines `hs`,
the header loop emits them all and hands the rest to the sampler. -/
theorem processHeaders_exact (hs : List String) :
    ∀ rest : List (Except IOError String),
      processHeaders hs.length (okLines hs ++ rest) = .proceed hs rest := by
  induction hs with
  | nil => intro rest; rfl
  | cons line hs ih =>
    intro rest
    have h2 := ih rest
    simp only [okLines] at h2
    simp [okLines, processHeaders, h2]

/-- C10: If reading any post-header line fails, the active sampler returns
that error without producing a result, and the whole run emits only the
header lines and exits non-zero: no sampled line is written before the
input has been read to the end successfully. -/
theorem read_error_aborts (mode : Mode) (k : Nat) (p : ℚ)
    (hs ls : List String) (e : IOError)
    (bad : List (Except IOError String)) (rng : StdRng)
    (w : Nat → WriteOutcome) :
    reservoir_sample (okLines ls ++ .error e :: bad) k rng = .error e ∧
      probability_sample (okLines ls ++ .error e :: bad) p rng = .error e ∧
      main_run mode hs.length (okLines hs ++ (okLines ls ++ .error e :: bad))
        rng w = ⟨hs, 1⟩ := by
  refine ⟨reservoirLoop_error k e bad ls 0 [] rng,
    probLoop_error p e bad ls [] rng, ?_⟩
  cases mode with
  | fixedSize k' =>
    simp [main_run, processHeaders_exact, reservoir_sample,
      reservoirLoop_error k' e bad ls 0 [] rng]
  | probability p' =>
    simp [main_run, processHeaders_exact, probability_sample,
      probLoop_error p' e bad ls [] rng]
